import Mathlib

/-!
Verification of the wavio sample-width codec and amplitude-mapping engine.

The definitions below are a shallow embedding of `wavio.py`:

* `_wav2array` / `_array2wav` (the Width Codec) become `wav2array` /
  `array2wav`, operating on flat lists of byte values (naturals `< 256`)
  and matrices of integers (lists of frames, each frame a list of
  per-channel samples).
* `_float_to_integer` (the Amplitude Mapper) becomes `floatToInteger`,
  with numpy floating-point arithmetic modelled by exact rationals.
* `write` (the orchestration path) becomes `write`, returning
  `Except WavErr WriteOut`; raising a Python exception is modelled by an
  `Except.error` result, in which case no output record (and hence no
  byte stream) is produced.  Emission of a `ClippedDataWarning` is
  modelled by the Boolean `warned` component of a successful result.

numpy conventions reflected in the model: the arithmetic right shift
`>>` on a signed integer is floor division by the corresponding power of
two, and `& 255` of any signed integer is its nonnegative residue mod
256; both are written with `Int.fdiv` / `Int.emod`.
-/

namespace Wavio

/-- Errors raised by the write path of `wavio.py`: `ValueError`,
`ClippedDataError` (a `RuntimeError` subclass) and `TypeError`.  These are
the only exception kinds the module itself raises on the write path. -/
inductive WavErr where
  | valueError : WavErr
  | clippedDataError : WavErr
  | typeError : WavErr
deriving DecidableEq

/-- Value of a little-endian byte list: `leVal [b0, b1, ...] = b0 + 256*b1 + ...`. -/
def leVal : List Nat → Nat
  | [] => 0
  | b :: bs => b + 256 * leVal bs

/-- Reinterpret the unsigned value `u` (assumed `< 2^(8*w)`) as a signed
little-endian `w`-byte two's-complement integer, as numpy's `frombuffer`
with dtype `<i{w}` does. -/
def asSigned (w : Nat) (u : Nat) : Int :=
  if u < 2 ^ (8 * w - 1) then (u : Int) else (u : Int) - 2 ^ (8 * w)

/-- Decode one sample from its `w` raw bytes, following `_wav2array`
(`wavio.py` lines 76-86): width 1 is a single unsigned byte; width 3
copies the 3 raw bytes into the low 3 positions of a 4-byte group and
sets the 4th byte to `(b2 >> 7) * 255` (the code at line 80), then views
the group as `<i4`; widths 2 and 4 reinterpret the bytes directly as a
signed little-endian integer. -/
def decSample (w : Nat) (bytes : List Nat) : Int :=
  if w = 1 then (leVal bytes : Int)
  else if w = 3 then
    asSigned 4 (leVal (bytes ++ [(bytes.getD 2 0 >>> 7) * 255]))
  else asSigned w (leVal bytes)

/-- Little-endian bytes of the stored `w`-byte integer holding `v`:
numpy's `astype('<...')` followed by `tobytes()` emits the
two's-complement representation `v mod 2^(8*w)` in little-endian order. -/
def twosLE (w : Nat) (v : Int) : List Nat :=
  (List.range w).map fun k => (v % (2 ^ (8 * w) : Int)).toNat / 2 ^ (8 * k) % 256

/-- One byte of the width-3 encoding: `(v >> k) & 255` on a signed numpy
integer, i.e. floor division by `2^k` followed by the nonnegative residue
mod 256 (`_array2wav`, line 110). -/
def encByte3 (v : Int) (k : Nat) : Nat :=
  ((v.fdiv (2 ^ k)) % 256).toNat

/-- Encode one sample at width `w`, following `_array2wav`
(`wavio.py` lines 103-116): width 3 takes shifts by 0, 8 and 16 bits each
masked to 8 bits; other widths emit the little-endian bytes of the stored
integer. -/
def encSample (w : Nat) (v : Int) : List Nat :=
  if w = 3 then [encByte3 v 0, encByte3 v 8, encByte3 v 16]
  else twosLE w v

/-- Split a list into consecutive chunks of `n` elements (`n > 0`),
modelling numpy's `reshape(-1, n)` on a flat buffer. -/
def chunks (n : Nat) (l : List α) : List (List α) :=
  match l with
  | [] => []
  | a :: rest =>
    if n = 0 then []
    else (a :: rest).take n :: chunks n ((a :: rest).drop n)
termination_by l.length
decreasing_by
  simp only [List.length_drop, List.length_cons]
  omega

/-- Convert a sample matrix (list of frames, each a list of per-channel
values) to the flat WAV byte stream, following `_array2wav`: samples are
emitted row-major, each as its `sampwidth` bytes. -/
def array2wav (a : List (List Int)) (sampwidth : Nat) : List Nat :=
  a.flatMap fun frame => frame.flatMap (encSample sampwidth)

/-- Convert a flat WAV byte stream to a sample matrix, following
`_wav2array` (`wavio.py` lines 67-87): the length must be an exact
multiple of `sampwidth * nchannels`, `sampwidth` must not exceed 4, and
the decoded samples are reshaped into rows of `nchannels`. -/
def wav2array (nchannels sampwidth : Nat) (data : List Nat) :
    Except WavErr (List (List Int)) :=
  if data.length % (sampwidth * nchannels) ≠ 0 then .error .valueError
  else if 4 < sampwidth then .error .valueError
  else .ok (chunks nchannels ((chunks sampwidth data).map (decSample sampwidth)))

/-- Lower bound of the integer domain for each sample width
(`_sampwidth_minmax`, `wavio.py` lines 222-225). -/
def sampwidthMin : Nat → Int
  | 1 => 0
  | 2 => -2 ^ 15
  | 3 => -2 ^ 23
  | 4 => -2 ^ 31
  | _ => 0

/-- Upper bound of the integer domain for each sample width
(`_sampwidth_minmax`, `wavio.py` lines 222-225). -/
def sampwidthMax : Nat → Int
  | 1 => 255
  | 2 => 2 ^ 15 - 1
  | 3 => 2 ^ 23 - 1
  | 4 => 2 ^ 31 - 1
  | _ => 0

/-- The `scale` argument of the write path: Python `None`, the string
sentinel `"auto"`, or a numeric value (modelled as an exact rational). -/
inductive ScaleSpec where
  | auto : ScaleSpec
  | none : ScaleSpec
  | num : ℚ → ScaleSpec
deriving DecidableEq

/-- The constant `c = 2**(nbits - 1) - 0.5` of `_float_to_integer`
(`wavio.py` line 236), with `nbits = 8*sampwidth`. -/
def cOf (sampwidth : Nat) : ℚ := 2 ^ (8 * sampwidth - 1) - 1 / 2

/-- Model of `np.max(np.r_[vals, 0])`: the maximum of a list of rationals
together with `0`. -/
def maxOrZero (l : List ℚ) : ℚ := l.foldl max 0

/-- The `"auto"` scale computed by `_float_to_integer` (`wavio.py` lines
238-240): `max(np.max(np.r_[x[x > 0], 0]), np.max(np.r_[-x[x < 0], 0])/(1 + 1/c))`. -/
def autoScale (x : List ℚ) (c : ℚ) : ℚ :=
  max (maxOrZero (x.filter fun t => decide (0 < t)))
    (maxOrZero ((x.filter fun t => decide (t < 0)).map fun t => -t) / (1 + 1 / c))

/-- Scale resolution of `_float_to_integer` (`wavio.py` lines 238-242):
the sentinel `"auto"` invokes `autoScale`, an absent scale means `1.0`,
and a numeric scale is used as given. -/
def resolveScale (x : List ℚ) (c : ℚ) : ScaleSpec → ℚ
  | .auto => autoScale x c
  | .none => 1
  | .num s => s

/-- Model of `np.sign` on an exact rational. -/
def sgn (x : ℚ) : Int := if x < 0 then -1 else if x = 0 then 0 else 1

/-- The rounding rule `_round_with_half_towards_zero` (`wavio.py` lines
268-270): `s * ceil(|x| - 0.5)` where `s = sign(x)`. -/
def roundHTZ (x : ℚ) : Int := sgn x * ⌈|x| - 1 / 2⌉

/-- Model of `np.clip(v, lo, hi)` on integers. -/
def clampI (lo hi v : Int) : Int := min (max v lo) hi

/-- Lower end of the output interval of `_float_to_integer`
(`wavio.py` lines 244-251): `0` for width 1, `-2**(nbits-1)` otherwise. -/
def intMinOf (sw : Nat) : Int := if sw = 1 then 0 else -(2 ^ (8 * sw - 1))

/-- The midpoint of `_float_to_integer` (`wavio.py` lines 244-251):
`128` for width 1, `0` otherwise. -/
def midpointOf (sw : Nat) : Int := if sw = 1 then 128 else 0

/-- Upper end of the output interval of `_float_to_integer`
(`wavio.py` lines 244-251): `255` for width 1, `2**(nbits-1) - 1` otherwise. -/
def intMaxOf (sw : Nat) : Int := if sw = 1 then 255 else 2 ^ (8 * sw - 1) - 1

/-- The per-element conversion of `_float_to_integer` (`wavio.py` lines
263-264): `y = midpoint + _round_with_half_towards_zero(x/scale*c)`
followed by `np.clip(y, int_min, int_max)`.  The rational model of the
division is faithful only for a nonzero `scaleV` (numpy division of a
float by zero yields an IEEE infinity, which `ℚ` does not represent);
no theorem below evaluates this function at a zero scale. -/
def mapElem (sw : Nat) (scaleV t : ℚ) : Int :=
  clampI (intMinOf sw) (intMaxOf sw) (midpointOf sw + roundHTZ (t / scaleV * cOf sw))

/-- The Amplitude Mapper `_float_to_integer` (`wavio.py` lines 228-265),
on a flat list of floating-point samples modelled as exact rationals.
The clip-violation test is `np.any(scaled_x > 1) or np.any(scaled_x < -1 - 1/c)`
with `scaled_x = x/scale`; under clip policy `"raise"` a violation raises
`ClippedDataError` (modelled as an error result, so no value is
produced), under `"warn"` it sets the warned flag, and under `"ignore"`
nothing is reported.  The returned values are `mapElem` of each sample.
Like `mapElem`, the model is faithful only for a nonzero resolved scale:
at scale zero numpy computes infinite `scaled_x` values (reporting a
`RuntimeWarning`, not an exception) where the rational model computes 0;
no theorem below evaluates this function at a zero scale. -/
def floatToInteger (x : List ℚ) (sampwidth : Nat) (scale : ScaleSpec)
    (clip : String) : Except WavErr (Bool × List Int) :=
  let c := cOf sampwidth
  let scaleV := resolveScale x c scale
  let scaled := x.map fun t => t / scaleV
  let violation := scaled.any (fun t => decide (1 < t)) ||
    scaled.any (fun t => decide (t < -1 - 1 / c))
  if clip == "raise" && violation then .error .clippedDataError
  else .ok (clip == "warn" && violation, x.map (mapElem sampwidth scaleV))

/-- The numeric kind and contents of the `data` argument of `write`:
an integer array (with its dtype's `itemsize` in bytes), a
floating-point array, or an array of any other dtype (e.g. boolean or
complex).  The model covers 1-dimensional input, which `write` reshapes
to a single-column matrix; values are listed in storage order. -/
inductive ArrayData where
  | ints (itemsize : Nat) (vals : List Int)
  | floats (vals : List ℚ)
  | other
deriving DecidableEq

/-- A successful result of the write path: the `warned` flag records
whether a `ClippedDataWarning` was emitted, and the remaining fields are
exactly the four values handed to the container writer
(`wavio.py` lines 470-475): channel count, sample width, frame rate and
the encoded byte stream. -/
structure WriteOut where
  warned : Bool
  nchannels : Nat
  sampwidth : Nat
  rate : Nat
  bytes : List Nat
deriving DecidableEq

/-- The integer-input clip test of `write` (`wavio.py` line 444):
`data.min() < outmin or data.max() > outmax`, stated per element — the
two are equivalent on nonempty arrays.  On a zero-size array numpy's
`min`/`max` reductions raise a `ValueError` instead; `write` models that
error path by an explicit emptiness check placed where the reduction
occurs in the source. -/
def intClipViolation (vals : List Int) (lo hi : Int) : Bool :=
  vals.any fun v => decide (v < lo) || decide (hi < v)

/-- The write path `write` (`wavio.py` lines 422-475), for 1-dimensional
input data.  In source order: the clip policy is validated; the sample
width is taken from the argument (which must be in {1,2,3,4}) or
inferred from an integer dtype of itemsize at most 4; integer data
must come without a `scale` argument and is clamped to the output
domain (clip policy applying to out-of-domain values); floating-point
data goes through `floatToInteger`; any other dtype is a `TypeError`.
On an empty integer array the reduction `data.min()` at line 444 raises
a numpy `ValueError` before any clamping, modelled by the emptiness
check in the integer branch.
A successful result carries the bytes produced by `array2wav` on the
single-column matrix; an error result models a raised exception, in
which case the container writer is never invoked and no bytes are
written. -/
def write (data : ArrayData) (rate : Nat) (scale : ScaleSpec)
    (sampwidth : Option Nat) (clip : String) : Except WavErr WriteOut :=
  if clip ∉ (["ignore", "warn", "raise"] : List String) then .error .valueError
  else
    match (match sampwidth with
      | Option.none =>
        match data with
        | .ints isz _ => if 4 < isz then Except.error WavErr.valueError else .ok isz
        | _ => .error .valueError
      | Option.some sw =>
        if sw = 1 ∨ sw = 2 ∨ sw = 3 ∨ sw = 4 then .ok sw
        else .error .valueError : Except WavErr Nat) with
    | .error e => .error e
    | .ok sw =>
      match data with
      | .ints _ vals =>
        if scale ≠ ScaleSpec.none then .error .valueError
        else if vals = [] then .error .valueError
        else
          let violation := intClipViolation vals (sampwidthMin sw) (sampwidthMax sw)
          if clip == "raise" && violation then .error .clippedDataError
          else
            let clamped := vals.map fun v => clampI (sampwidthMin sw) (sampwidthMax sw) v
            .ok ⟨clip == "warn" && violation, 1, sw, rate,
              array2wav (clamped.map fun v => [v]) sw⟩
      | .floats xs =>
        match floatToInteger xs sw scale clip with
        | .error e => .error e
        | .ok (warned, ys) =>
          .ok ⟨warned, 1, sw, rate, array2wav (ys.map fun v => [v]) sw⟩
      | .other => .error .typeError

theorem chunks_nil (n : Nat) : chunks n ([] : List α) = [] := by
  rw [chunks]

theorem chunks_cons {n : Nat} {l : List α} (hn : n ≠ 0) (hl : l ≠ []) :
    chunks n l = l.take n :: chunks n (l.drop n) := by
  rcases l with _ | ⟨a, rest⟩
  · exact absurd rfl hl
  · rw [chunks]
    simp [hn]

theorem chunks_flatMap {n : Nat} (hn : n ≠ 0) (f : α → List β) :
    ∀ l : List α, (∀ a ∈ l, (f a).length = n) →
      chunks n (l.flatMap f) = l.map f := by
  intro l
  induction l with
  | nil => intro _; simp [chunks_nil]
  | cons a l ih =>
    intro h
    have ha : (f a).length = n := h a (by simp)
    have hfa : f a ≠ [] := by
      intro hcon
      rw [hcon] at ha
      simp at ha
      exact hn ha.symm
    have hne : (a :: l).flatMap f ≠ [] := by
      simp only [List.flatMap_cons]
      intro hcon
      rcases List.append_eq_nil.mp hcon with ⟨h1, _⟩
      exact hfa h1
    rw [List.flatMap_cons, chunks_cons hn (by simpa [List.flatMap_cons] using hne),
        List.take_left' ha, List.drop_left' ha, ih (fun b hb => h b (by simp [hb]))]
    simp

theorem chunks_one (l : List α) : chunks 1 l = l.map fun a => [a] := by
  induction l with
  | nil => simp [chunks_nil]
  | cons a l ih =>
    rw [chunks_cons (by omega) (by simp)]
    simpa using ih

theorem encSample_length {w : Nat} (hw : w = 1 ∨ w = 2 ∨ w = 3 ∨ w = 4)
    (v : Int) : (encSample w v).length = w := by
  rcases hw with h | h | h | h <;> subst h <;> simp [encSample, twosLE]

theorem decSample_encSample_1 {v : Int} (h0 : 0 ≤ v) (h1 : v ≤ 255) :
    decSample 1 (encSample 1 v) = v := by
  have hr : List.range 1 = [0] := rfl
  have p8 : (2 : ℤ) ^ (8 * 1) = 256 := by norm_num
  have pk0 : (2 : ℕ) ^ (8 * 0) = 1 := by norm_num
  simp only [decSample, encSample, twosLE, leVal, hr, List.map_cons,
    List.map_nil, p8, pk0, Nat.div_one, eq_self_iff_true, if_true,
    if_neg (by norm_num : ¬(1 : ℕ) = 3)]
  omega

theorem decSample_encSample_2 {v : Int} (h0 : -2 ^ 15 ≤ v) (h1 : v < 2 ^ 15) :
    decSample 2 (encSample 2 v) = v := by
  have hr : List.range 2 = [0, 1] := rfl
  have p16 : (2 : ℤ) ^ (8 * 2) = 65536 := by norm_num
  have pc : (2 : ℕ) ^ (8 * 2 - 1) = 32768 := by norm_num
  have pk0 : (2 : ℕ) ^ (8 * 0) = 1 := by norm_num
  have pk1 : (2 : ℕ) ^ (8 * 1) = 256 := by norm_num
  simp only [decSample, encSample, twosLE, asSigned, leVal, hr, List.map_cons,
    List.map_nil, p16, pc, pk0, pk1, Nat.div_one,
    if_neg (by norm_num : ¬(2 : ℕ) = 1), if_neg (by norm_num : ¬(2 : ℕ) = 3)]
  split <;> omega

theorem decSample_encSample_4 {v : Int} (h0 : -2 ^ 31 ≤ v) (h1 : v < 2 ^ 31) :
    decSample 4 (encSample 4 v) = v := by
  have hr : List.range 4 = [0, 1, 2, 3] := rfl
  have p32 : (2 : ℤ) ^ (8 * 4) = 4294967296 := by norm_num
  have pc : (2 : ℕ) ^ (8 * 4 - 1) = 2147483648 := by norm_num
  have pk0 : (2 : ℕ) ^ (8 * 0) = 1 := by norm_num
  have pk1 : (2 : ℕ) ^ (8 * 1) = 256 := by norm_num
  have pk2 : (2 : ℕ) ^ (8 * 2) = 65536 := by norm_num
  have pk3 : (2 : ℕ) ^ (8 * 3) = 16777216 := by norm_num
  simp only [decSample, encSample, twosLE, asSigned, leVal, hr, List.map_cons,
    List.map_nil, p32, pc, pk0, pk1, pk2, pk3, Nat.div_one,
    if_neg (by norm_num : ¬(4 : ℕ) = 1), if_neg (by norm_num : ¬(4 : ℕ) = 3)]
  split <;> omega

theorem decSample_encSample_3 {v : Int} (h0 : -2 ^ 23 ≤ v) (h1 : v < 2 ^ 23) :
    decSample 3 (encSample 3 v) = v := by
  have hf0 : v.fdiv (2 ^ (0 : ℕ)) = v := by
    rw [Int.fdiv_eq_ediv _ (by positivity)]
    norm_num
  have hf8 : v.fdiv (2 ^ (8 : ℕ)) = v / 256 := by
    rw [Int.fdiv_eq_ediv _ (by positivity)]
    norm_num
  have hf16 : v.fdiv (2 ^ (16 : ℕ)) = v / 65536 := by
    rw [Int.fdiv_eq_ediv _ (by positivity)]
    norm_num
  have hg : ∀ a b c : Nat, [a, b, c].getD 2 0 = c := fun _ _ _ => rfl
  have pn7 : (2 : ℕ) ^ (7 : ℕ) = 128 := by norm_num
  have pc : (2 : ℕ) ^ (8 * 4 - 1) = 2147483648 := by norm_num
  have p32 : (2 : ℤ) ^ (8 * 4) = 4294967296 := by norm_num
  simp only [decSample, encSample, encByte3, hf0, hf8, hf16, hg, asSigned, leVal,
    List.cons_append, List.nil_append, Nat.shiftRight_eq_div_pow, pn7, pc, p32,
    eq_self_iff_true, if_true, if_neg (by norm_num : ¬(3 : ℕ) = 1)]
  split <;> omega

theorem decSample_encSample {w : Nat} (hw : w = 1 ∨ w = 2 ∨ w = 3 ∨ w = 4)
    {v : Int} (hlo : sampwidthMin w ≤ v) (hhi : v ≤ sampwidthMax w) :
    decSample w (encSample w v) = v := by
  rcases hw with h | h | h | h <;> subst h <;>
    simp only [sampwidthMin, sampwidthMax] at hlo hhi
  · exact decSample_encSample_1 hlo hhi
  · exact decSample_encSample_2 hlo (by omega)
  · exact decSample_encSample_3 hlo (by omega)
  · exact decSample_encSample_4 hlo (by omega)

theorem flatMap_length_const {f : α → List β} {n : Nat} :
    ∀ {l : List α}, (∀ a ∈ l, (f a).length = n) →
      (l.flatMap f).length = n * l.length := by
  intro l
  induction l with
  | nil => intro _; simp
  | cons a l ih =>
    intro h
    simp only [List.flatMap_cons, List.length_append, List.length_cons,
      h a (by simp), ih fun b hb => h b (by simp [hb])]
    ring

theorem roundtrip_single_channel {w : Nat} (hw : w = 1 ∨ w = 2 ∨ w = 3 ∨ w = 4)
    (l : List Int) (hd : ∀ v ∈ l, sampwidthMin w ≤ v ∧ v ≤ sampwidthMax w) :
    wav2array 1 w (array2wav (l.map fun v => [v]) w) =
      .ok (l.map fun v => [v]) := by
  have hw0 : w ≠ 0 := by rcases hw with h | h | h | h <;> omega
  have hbytes : array2wav (l.map fun v => [v]) w = l.flatMap (encSample w) := by
    simp [array2wav, List.flatMap_map, Function.comp_def]
  have hlen : (l.flatMap (encSample w)).length = w * l.length :=
    flatMap_length_const fun a _ => encSample_length hw a
  have hmod : (l.flatMap (encSample w)).length % (w * 1) = 0 := by
    rw [hlen, Nat.mul_one, Nat.mul_mod_right]
  have h4 : ¬4 < w := by rcases hw with h | h | h | h <;> omega
  rw [hbytes]
  have hunfold : wav2array 1 w (l.flatMap (encSample w)) =
      .ok (chunks 1 ((chunks w (l.flatMap (encSample w))).map (decSample w))) := by
    unfold wav2array
    rw [hmod]
    simp [h4]
  have hcongr : l.map (decSample w ∘ encSample w) = l.map id :=
    List.map_congr_left fun v hv =>
      decSample_encSample hw (hd v hv).1 (hd v hv).2
  rw [hunfold, chunks_flatMap hw0 _ l fun a _ => encSample_length hw a,
    List.map_map, hcongr, List.map_id, chunks_one]

/-- Claim C1: for every sample width `w ∈ {1,2,3,4}` and every integer
sample value in that width's domain (`[0,255]`, `[-2^15,2^15-1]`,
`[-2^23,2^23-1]`, `[-2^31,2^31-1]` respectively), encoding a
single-column sample matrix with `array2wav` at width `w` and decoding
the resulting byte stream with `wav2array` at the same width and channel
count returns exactly the original values. -/
theorem claim_c1_roundtrip {w : Nat} (hw : w = 1 ∨ w = 2 ∨ w = 3 ∨ w = 4)
    (l : List Int) (hd : ∀ v ∈ l, sampwidthMin w ≤ v ∧ v ≤ sampwidthMax w) :
    wav2array 1 w (array2wav (l.map fun v => [v]) w) =
      .ok (l.map fun v => [v]) :=
  roundtrip_single_channel hw l hd

/-- Witness for claim C1: width 3, single-channel matrix holding the
domain extremes and -1. -/
theorem claim_c1_roundtrip_witness :
    wav2array 1 3 (array2wav (([-8388608, -1, 8388607] : List Int).map
      fun v => [v]) 3) =
      .ok (([-8388608, -1, 8388607] : List Int).map fun v => [v]) :=
  claim_c1_roundtrip (by norm_num) _ (by decide)

/-- Claim C2: the width-3 decoder expands each 3-byte little-endian
group by appending a 4th byte equal to 255 when bit 7 of the
most-significant raw byte is set and 0 otherwise, so the decoded value
is the original signed 24-bit value; the byte triples produced by
encoding -1, 8388607 and -8388608 decode back to exactly those values
(in particular -1, never 16777215). -/
theorem claim_c2_sign_extension :
    (∀ b0 b1 b2 : Nat, b0 < 256 → b1 < 256 → b2 < 256 →
      decSample 3 [b0, b1, b2] =
        (if b2 < 128 then ((b0 + 256 * b1 + 65536 * b2 : Nat) : Int)
         else ((b0 + 256 * b1 + 65536 * b2 : Nat) : Int) - 2 ^ 24) ∧
      (b2 >>> 7) * 255 = if 128 ≤ b2 then 255 else 0) ∧
    decSample 3 (encSample 3 (-1)) = -1 ∧
    decSample 3 (encSample 3 (-1)) ≠ 16777215 ∧
    decSample 3 (encSample 3 8388607) = 8388607 ∧
    decSample 3 (encSample 3 (-8388608)) = -8388608 := by
  refine ⟨fun b0 b1 b2 h0 h1 h2 => ⟨?_, ?_⟩, by decide, by decide, by decide,
    by decide⟩
  · have hg : [b0, b1, b2].getD 2 0 = b2 := rfl
    have pn7 : (2 : ℕ) ^ (7 : ℕ) = 128 := by norm_num
    have pc : (2 : ℕ) ^ (8 * 4 - 1) = 2147483648 := by norm_num
    have p32 : (2 : ℤ) ^ (8 * 4) = 4294967296 := by norm_num
    have p24 : (2 : ℤ) ^ (24 : ℕ) = 16777216 := by norm_num
    simp only [decSample, hg, asSigned, leVal, List.cons_append,
      List.nil_append, Nat.shiftRight_eq_div_pow, pn7, pc, p32, p24,
      eq_self_iff_true, if_true, if_neg (by norm_num : ¬(3 : ℕ) = 1)]
    split_ifs <;> omega
  · rw [Nat.shiftRight_eq_div_pow]
    norm_num
    split_ifs <;> omega

/-- Witness for claim C2: the all-ones byte triple (the encoding of -1)
has its sign byte set to 255 and decodes to -1. -/
theorem claim_c2_sign_extension_witness :
    decSample 3 [255, 255, 255] =
      (if (255 : Nat) < 128 then ((255 + 256 * 255 + 65536 * 255 : Nat) : Int)
       else ((255 + 256 * 255 + 65536 * 255 : Nat) : Int) - 2 ^ 24) ∧
    ((255 : Nat) >>> 7) * 255 = if (128 : Nat) ≤ 255 then 255 else 0 :=
  claim_c2_sign_extension.1 255 255 255 (by decide) (by decide) (by decide)

/-- Claim C4: the rounding function of the Amplitude Mapper equals
`sign(v) * ceil(|v| - 0.5)` for every value, every tie rounds toward
zero (`n + 1/2` maps to `n` and `-(n + 1/2)` maps to `-n`), and the
width-2 instance with `scaled*c = 1.5` (input `3/65535`, scale absent so
resolved to 1) yields `midpoint + 1 = 1`, not 2. -/
theorem claim_c4_round_half_towards_zero :
    (∀ v : ℚ, roundHTZ v = sgn v * ⌈|v| - 1 / 2⌉) ∧
    (∀ n : ℕ, roundHTZ ((n : ℚ) + 1 / 2) = n ∧
      roundHTZ (-((n : ℚ) + 1 / 2)) = -(n : ℤ)) ∧
    floatToInteger [3 / 65535] 2 .none "warn" = .ok (false, [1]) := by
  refine ⟨fun v => rfl, fun n => ⟨?_, ?_⟩, ?_⟩
  · have hpos : (0 : ℚ) < (n : ℚ) + 1 / 2 := by positivity
    have hs : sgn ((n : ℚ) + 1 / 2) = 1 := by
      unfold sgn
      rw [if_neg (by linarith), if_neg (by linarith)]
    unfold roundHTZ
    rw [hs, abs_of_pos hpos, one_mul,
      show (n : ℚ) + 1 / 2 - 1 / 2 = (n : ℚ) by ring, Int.ceil_natCast]
  · have hpos : (0 : ℚ) < (n : ℚ) + 1 / 2 := by positivity
    have hs : sgn (-((n : ℚ) + 1 / 2)) = -1 := by
      unfold sgn
      rw [if_pos (by linarith)]
    unfold roundHTZ
    rw [hs, abs_neg, abs_of_pos hpos,
      show (n : ℚ) + 1 / 2 - 1 / 2 = (n : ℚ) by ring, Int.ceil_natCast]
    ring
  · simp only [floatToInteger, resolveScale, cOf, mapElem, clampI, midpointOf,
      intMinOf, intMaxOf, roundHTZ, sgn, List.map_cons, List.map_nil,
      List.any_cons, List.any_nil]
    norm_num [abs_of_pos]

theorem foldl_max_le_iff {l : List ℚ} {a b : ℚ} :
    l.foldl max a ≤ b ↔ a ≤ b ∧ ∀ t ∈ l, t ≤ b := by
  induction l generalizing a with
  | nil => simp
  | cons c l ih =>
    simp only [List.foldl_cons, ih, max_le_iff, List.mem_cons]
    constructor
    · rintro ⟨⟨h1, h2⟩, h3⟩
      exact ⟨h1, fun t ht => ht.elim (fun he => he ▸ h2) (h3 t)⟩
    · rintro ⟨h1, h2⟩
      exact ⟨⟨h1, h2 c (.inl rfl)⟩, fun t ht => h2 t (.inr ht)⟩

theorem maxOrZero_nonneg (l : List ℚ) : 0 ≤ maxOrZero l :=
  (foldl_max_le_iff.mp le_rfl).1

theorem le_maxOrZero {l : List ℚ} {t : ℚ} (h : t ∈ l) : t ≤ maxOrZero l :=
  (foldl_max_le_iff.mp le_rfl).2 t h

theorem maxOrZero_le {l : List ℚ} {b : ℚ} (h0 : 0 ≤ b)
    (h : ∀ t ∈ l, t ≤ b) : maxOrZero l ≤ b :=
  foldl_max_le_iff.mpr ⟨h0, h⟩

/-- Claim C5: with a fixed positive scale, the Amplitude Mapper's output
values are exactly `midpoint + round_half_towards_zero((x/scale)*c)`
hard-clamped into the target width's domain, elementwise, whatever the
clip policy: any successful result carries these values, and under
policies other than `"raise"` the call always succeeds with them. -/
theorem claim_c5_mapper_values (x : List ℚ) (sw : Nat) (s : ℚ) (clip : String)
    (hsw : sw = 1 ∨ sw = 2 ∨ sw = 3 ∨ sw = 4) (hs : 0 < s)
    (hclip : clip = "ignore" ∨ clip = "warn" ∨ clip = "raise") :
    (∀ (w : Bool) (ys : List Int),
      floatToInteger x sw (.num s) clip = .ok (w, ys) →
      ys = x.map fun t => clampI (intMinOf sw) (intMaxOf sw)
        (midpointOf sw + roundHTZ (t / s * cOf sw))) ∧
    (clip ≠ "raise" → ∃ w : Bool,
      floatToInteger x sw (.num s) clip = .ok (w, x.map fun t =>
        clampI (intMinOf sw) (intMaxOf sw)
          (midpointOf sw + roundHTZ (t / s * cOf sw)))) := by
  have hfun : mapElem sw s = fun t => clampI (intMinOf sw) (intMaxOf sw)
      (midpointOf sw + roundHTZ (t / s * cOf sw)) := rfl
  constructor
  · intro w ys h
    unfold floatToInteger at h
    simp only [resolveScale] at h
    split at h
    · exact absurd h (by simp)
    · rw [Except.ok.injEq, Prod.mk.injEq] at h
      rw [← h.2, hfun]
  · intro hne
    have hbeq : (clip == "raise") = false := beq_eq_false_iff_ne.mpr hne
    refine ⟨(clip == "warn") &&
      (((x.map fun t => t / s).any fun t => decide (1 < t)) ||
        (x.map fun t => t / s).any fun t => decide (t < -1 - 1 / cOf sw)), ?_⟩
    unfold floatToInteger
    simp only [resolveScale, hbeq, Bool.false_and, Bool.false_eq_true,
      if_false, ite_false, hfun]

/-- Witness for claim C5: width 2, scale 1, input `1.0`; the sole output
value is `0 + round(1.0 * 32767.5) = 32767`, i.e. the claimed formula
evaluated concretely. -/
theorem claim_c5_mapper_values_witness :
    ([32767] : List Int) = [(1 : ℚ)].map fun t =>
      clampI (intMinOf 2) (intMaxOf 2)
        (midpointOf 2 + roundHTZ (t / 1 * cOf 2)) := by
  have hconc : floatToInteger [(1 : ℚ)] 2 (.num 1) "warn" =
      .ok (false, [32767]) := by
    simp only [floatToInteger, resolveScale, cOf, mapElem, clampI, midpointOf,
      intMinOf, intMaxOf, roundHTZ, sgn, List.map_cons, List.map_nil,
      List.any_cons, List.any_nil]
    norm_num [abs_of_pos]
  exact ((claim_c5_mapper_values [(1 : ℚ)] 2 1 "warn" (by norm_num)
    (by norm_num) (by simp)).1 false [32767] hconc)

/-- Claim C6: with the sentinel `"auto"`, the mapper behaves exactly as
with the fixed scale
`max(max(positive values, 0), max(negated negative values, 0) / (1 + 1/c))`;
moreover (for `c > 0`) this auto scale bounds every sample from above and
every negated sample by `scale * (1 + 1/c)`, the calibration property. -/
theorem claim_c6_auto_scale :
    (∀ (x : List ℚ) (sw : Nat) (clip : String),
      floatToInteger x sw .auto clip =
        floatToInteger x sw
          (.num (max (maxOrZero (x.filter fun t => decide (0 < t)))
            (maxOrZero ((x.filter fun t => decide (t < 0)).map fun t => -t) /
              (1 + 1 / cOf sw)))) clip) ∧
    (∀ (x : List ℚ) (c : ℚ), 0 < c → ∀ t ∈ x,
      t ≤ autoScale x c ∧ -t ≤ autoScale x c * (1 + 1 / c)) := by
  constructor
  · intro x sw clip
    rfl
  · intro x c hc t ht
    have h1c : (0 : ℚ) < 1 + 1 / c := by positivity
    have hposmax : 0 ≤ maxOrZero (x.filter fun t => decide (0 < t)) :=
      maxOrZero_nonneg _
    have hS0 : 0 ≤ autoScale x c := le_trans hposmax (le_max_left _ _)
    constructor
    · rcases le_or_lt t 0 with hneg | hpos
      · exact le_trans hneg hS0
      · exact le_trans (le_maxOrZero (by simp [ht, hpos]))
          (le_max_left _ _)
    · rcases lt_or_le t 0 with hneg | hpos
      · have hmem : -t ∈ (x.filter fun t => decide (t < 0)).map fun t => -t := by
          simp only [List.mem_map, List.mem_filter]
          exact ⟨t, ⟨ht, by simpa using hneg⟩, rfl⟩
        have h1 : -t ≤ maxOrZero ((x.filter fun t => decide (t < 0)).map fun t => -t) :=
          le_maxOrZero hmem
        have h2 : maxOrZero ((x.filter fun t => decide (t < 0)).map fun t => -t) /
            (1 + 1 / c) ≤ autoScale x c := le_max_right _ _
        calc -t ≤ maxOrZero ((x.filter fun t => decide (t < 0)).map fun t => -t) := h1
          _ = maxOrZero ((x.filter fun t => decide (t < 0)).map fun t => -t) /
              (1 + 1 / c) * (1 + 1 / c) := by field_simp
          _ ≤ autoScale x c * (1 + 1 / c) :=
              mul_le_mul_of_nonneg_right h2 (le_of_lt h1c)
      · exact le_trans (by linarith) (mul_nonneg hS0 (le_of_lt h1c))

/-- Witness for claim C6: the calibration bounds evaluated at the sample
`-1` of the list `[-1, 1/2]` at width 3. -/
theorem claim_c6_auto_scale_witness :
    (-1 : ℚ) ≤ autoScale [-1, 1 / 2] (cOf 3) ∧
      -(-1 : ℚ) ≤ autoScale [-1, 1 / 2] (cOf 3) * (1 + 1 / cOf 3) :=
  claim_c6_auto_scale.2 [-1, 1 / 2] (cOf 3) (by norm_num [cOf]) (-1) (by simp)

theorem clampI_bounds {lo hi v : Int} (h : lo ≤ hi) :
    lo ≤ clampI lo hi v ∧ clampI lo hi v ≤ hi := by
  unfold clampI
  constructor
  · exact le_min (le_max_right _ _) h
  · exact min_le_right _ _

theorem sampwidthMin_le_max {w : Nat} (hw : w = 1 ∨ w = 2 ∨ w = 3 ∨ w = 4) :
    sampwidthMin w ≤ sampwidthMax w := by
  rcases hw with h | h | h | h <;> subst h <;> norm_num [sampwidthMin, sampwidthMax]

theorem intViolation_of_mem {vals : List Int} {lo hi : Int}
    (h : ∃ v ∈ vals, v < lo ∨ hi < v) : intClipViolation vals lo hi = true := by
  rcases h with ⟨v, hv, hlt⟩
  simp only [intClipViolation, List.any_eq_true]
  refine ⟨v, hv, ?_⟩
  rcases hlt with h | h <;> simp [h]

theorem floatToInteger_raise_of_violation {x : List ℚ} {sw : Nat} {s : ℚ}
    (hviol : ∃ t ∈ x, 1 < t / s ∨ t / s < -1 - 1 / cOf sw) :
    floatToInteger x sw (.num s) "raise" = .error .clippedDataError := by
  rcases hviol with ⟨t, ht, hlt⟩
  have hany : (((x.map fun u => u / s).any fun u => decide (1 < u)) ||
      ((x.map fun u => u / s).any fun u => decide (u < -1 - 1 / cOf sw))) = true := by
    rw [Bool.or_eq_true]
    rcases hlt with h | h
    · exact Or.inl (by
        simp only [List.any_eq_true, List.mem_map]
        exact ⟨t / s, ⟨t, ht, rfl⟩, by simpa using h⟩)
    · exact Or.inr (by
        simp only [List.any_eq_true, List.mem_map]
        exact ⟨t / s, ⟨t, ht, rfl⟩, by simpa using h⟩)
  simp only [floatToInteger, resolveScale]
  rw [if_pos]
  rw [show ("raise" == "raise") = true from rfl, Bool.true_and]
  exact hany

/-- Claim C3: under clip policy `"raise"`, a clipping violation (integer
input out of the target domain, or float input with a scaled value above
1 or below `-(1 + 1/c)`) makes the write path fail with
`ClippedDataError`; the error result carries no `WriteOut`, so no bytes
are handed to the container writer. -/
theorem claim_c3_raise_blocks_output :
    (∀ (isz : Nat) (vals : List Int) (rate sw : Nat),
      (sw = 1 ∨ sw = 2 ∨ sw = 3 ∨ sw = 4) →
      (∃ v ∈ vals, v < sampwidthMin sw ∨ sampwidthMax sw < v) →
      write (.ints isz vals) rate .none (some sw) "raise" =
        .error .clippedDataError) ∧
    (∀ (x : List ℚ) (rate sw : Nat) (s : ℚ),
      (sw = 1 ∨ sw = 2 ∨ sw = 3 ∨ sw = 4) →
      (∃ t ∈ x, 1 < t / s ∨ t / s < -1 - 1 / cOf sw) →
      write (.floats x) rate (.num s) (some sw) "raise" =
        .error .clippedDataError) := by
  constructor
  · intro isz vals rate sw hsw hviol
    have hv := intViolation_of_mem hviol
    unfold write
    rw [if_neg (by decide : ¬("raise" ∉ (["ignore", "warn", "raise"] : List String)))]
    simp only [if_pos hsw]
    rw [if_neg (by simp : ¬(ScaleSpec.none ≠ ScaleSpec.none))]
    rw [if_neg (by rcases hviol with ⟨v, hvm, _⟩; exact List.ne_nil_of_mem hvm)]
    rw [hv]
    simp
  · intro x rate sw s hsw hviol
    have hf : floatToInteger x sw (.num s) "raise" = .error .clippedDataError :=
      floatToInteger_raise_of_violation hviol
    unfold write
    rw [if_neg (by decide : ¬("raise" ∉ (["ignore", "warn", "raise"] : List String)))]
    simp only [if_pos hsw]
    rw [hf]

/-- Witness for claim C3: the spec's concrete scenarios, integer data
`[0,100,200,300,400]` at width 1 and float data containing `-3/2` at
width 2 with scale 1, both under clip `"raise"`. -/
theorem claim_c3_raise_blocks_output_witness :
    write (.ints 8 [0, 100, 200, 300, 400]) 100 .none (some 1) "raise" =
      .error .clippedDataError ∧
    write (.floats [1 / 2, 1 / 4, 0, -9 / 10, -3 / 2, 0]) 8000 (.num 1)
      (some 2) "raise" = .error .clippedDataError :=
  ⟨claim_c3_raise_blocks_output.1 8 [0, 100, 200, 300, 400] 100 1 (by norm_num)
    ⟨300, by norm_num [sampwidthMin, sampwidthMax]⟩,
   claim_c3_raise_blocks_output.2 [1 / 2, 1 / 4, 0, -9 / 10, -3 / 2, 0] 8000 2 1
    (by norm_num) ⟨-3 / 2, by norm_num [cOf]⟩⟩

/-- Claim C9 (amended): integer-typed input entails that a supplied
scale (numeric or `"auto"`) is rejected with a `ValueError` before any
conversion, and that otherwise, for nonempty input, the written values
are exactly the inputs clamped to the target domain, with clip policies
`"ignore"` and `"warn"` never raising; reading the written bytes back
yields the clamped values.  Nonemptiness is needed: on a zero-size
integer array the numpy reduction `data.min()` at `wavio.py` line 444
raises a `ValueError` even under clip `"ignore"`. -/
theorem claim_c9_integer_path :
    (∀ (isz : Nat) (vals : List Int) (rate sw : Nat) (scl : ScaleSpec)
      (clip : String),
      (clip = "ignore" ∨ clip = "warn" ∨ clip = "raise") →
      (sw = 1 ∨ sw = 2 ∨ sw = 3 ∨ sw = 4) →
      scl ≠ .none →
      write (.ints isz vals) rate scl (some sw) clip = .error .valueError) ∧
    (∀ (isz : Nat) (vals : List Int) (rate sw : Nat) (clip : String),
      (clip = "ignore" ∨ clip = "warn") →
      (sw = 1 ∨ sw = 2 ∨ sw = 3 ∨ sw = 4) →
      vals ≠ [] →
      write (.ints isz vals) rate .none (some sw) clip =
        .ok ⟨(clip == "warn") &&
            intClipViolation vals (sampwidthMin sw) (sampwidthMax sw),
          1, sw, rate,
          array2wav ((vals.map fun v =>
            clampI (sampwidthMin sw) (sampwidthMax sw) v).map fun v => [v]) sw⟩ ∧
      wav2array 1 sw (array2wav ((vals.map fun v =>
          clampI (sampwidthMin sw) (sampwidthMax sw) v).map fun v => [v]) sw) =
        .ok ((vals.map fun v =>
          clampI (sampwidthMin sw) (sampwidthMax sw) v).map fun v => [v])) := by
  constructor
  · intro isz vals rate sw scl clip hclip hsw hscl
    unfold write
    rw [if_neg (by rcases hclip with h | h | h <;> subst h <;> decide)]
    simp only [if_pos hsw]
    rw [if_pos hscl]
  · intro isz vals rate sw clip hclip hsw hne
    constructor
    · have hraise : (clip == "raise") = false := by
        rcases hclip with h | h <;> subst h <;> decide
      unfold write
      rw [if_neg (by rcases hclip with h | h <;> subst h <;> decide)]
      simp only [if_pos hsw]
      rw [if_neg (by simp : ¬(ScaleSpec.none ≠ ScaleSpec.none))]
      rw [if_neg hne]
      rw [hraise]
      simp
    · exact roundtrip_single_channel hsw _ fun v hv => by
        rcases List.mem_map.mp hv with ⟨u, _, hu⟩
        rw [← hu]
        exact clampI_bounds (sampwidthMin_le_max hsw)

/-- Witness for claim C9: the spec's concrete scenario
`[-100,0,100,200,300,325]` at width 1 with clip `"ignore"` yields the
clamped bytes `[0,0,100,200,255,255]`, which read back as those values;
and supplying `scale="auto"` with integer data is a `ValueError`. -/
theorem claim_c9_integer_path_witness :
    write (.ints 8 [-100, 0, 100, 200, 300, 325]) 44100 .auto (some 1)
      "ignore" = .error .valueError ∧
    write (.ints 8 [-100, 0, 100, 200, 300, 325]) 44100 .none (some 1)
      "ignore" = .ok ⟨("ignore" == "warn") &&
        intClipViolation [-100, 0, 100, 200, 300, 325] (sampwidthMin 1)
          (sampwidthMax 1), 1, 1, 44100,
        array2wav ((([-100, 0, 100, 200, 300, 325] : List Int).map fun v =>
          clampI (sampwidthMin 1) (sampwidthMax 1) v).map fun v => [v]) 1⟩ :=
  ⟨claim_c9_integer_path.1 8 [-100, 0, 100, 200, 300, 325] 44100 1 .auto
    "ignore" (by norm_num) (by norm_num) (by simp),
   (claim_c9_integer_path.2 8 [-100, 0, 100, 200, 300, 325] 44100 1 "ignore"
    (by norm_num) (by norm_num) (by simp)).1⟩

/-- Counterexample for claim C9: on the empty integer array the program
raises even under clip `"ignore"`: the numpy reduction `data.min()` at
`wavio.py` line 444 fails with a `ValueError` on a zero-size array, so
"clip policies ignore and warn never raising" does not hold for every
integer-typed input. -/
theorem claim_c9_counterexample :
    write (.ints 2 ([] : List Int)) 8000 .none (some 2) "ignore" =
      .error .valueError := rfl

/-- Claim C10: input whose dtype is neither integer nor floating point
(for example boolean or complex) makes the write path fail with a
`TypeError`, once the clip policy and sample width arguments have been
validated, regardless of the scale argument; the error result means no
output is written. -/
theorem claim_c10_unsupported_dtype (rate sw : Nat) (scl : ScaleSpec)
    (clip : String)
    (hclip : clip = "ignore" ∨ clip = "warn" ∨ clip = "raise")
    (hsw : sw = 1 ∨ sw = 2 ∨ sw = 3 ∨ sw = 4) :
    write .other rate scl (some sw) clip = .error .typeError := by
  unfold write
  rw [if_neg (by rcases hclip with h | h | h <;> subst h <;> decide)]
  simp only [if_pos hsw]

/-- Witness for claim C10: a boolean/complex-like array at rate 44100,
width 2, default-style scale, clip `"warn"`. -/
theorem claim_c10_unsupported_dtype_witness :
    write .other 44100 .none (some 2) "warn" = .error .typeError :=
  claim_c10_unsupported_dtype 44100 2 .none "warn" (by norm_num) (by norm_num)

theorem ceil_eq_of_bounds {q : ℚ} {n : ℤ} (h1 : (n : ℚ) - 1 < q)
    (h2 : q ≤ (n : ℚ)) : ⌈q⌉ = n :=
  Int.ceil_eq_iff.mpr ⟨h1, h2⟩

theorem roundHTZ_eval_pos (n : ℤ) {q : ℚ} (hq : 0 < q)
    (h1 : (n : ℚ) - 1 < q - 1 / 2) (h2 : q - 1 / 2 ≤ (n : ℚ)) :
    roundHTZ q = n := by
  unfold roundHTZ sgn
  rw [if_neg (by linarith), if_neg (by linarith), abs_of_pos hq, one_mul,
    ceil_eq_of_bounds h1 h2]

theorem roundHTZ_eval_neg (n : ℤ) {q : ℚ} (hq : q < 0)
    (h1 : (n : ℚ) - 1 < -q - 1 / 2) (h2 : -q - 1 / 2 ≤ (n : ℚ)) :
    roundHTZ q = -n := by
  unfold roundHTZ sgn
  rw [if_pos hq, abs_of_neg hq, ceil_eq_of_bounds h1 h2]
  ring

theorem c7_scenario_autoScale :
    autoScale [-1, 1 / 2] (cOf 3) = 16777215 / 16777217 := by
  unfold autoScale maxOrZero cOf
  norm_num [List.filter]

theorem c7_scenario_eval :
    floatToInteger [-1, 1 / 2] 3 .auto "warn" =
      .ok (false, [-8388608, 4194304]) := by
  have hm1 : mapElem 3 (16777215 / 16777217) (-1) = -8388608 := by
    unfold mapElem cOf intMinOf intMaxOf midpointOf clampI
    rw [show (-1 : ℚ) / (16777215 / 16777217) *
        (2 ^ (8 * 3 - 1) - 1 / 2) = -16777217 / 2 by norm_num]
    rw [show ((-16777217 : ℚ) / 2) = -(16777217 / 2) by norm_num,
      roundHTZ_eval_neg 8388608 (by norm_num) (by norm_num) (by norm_num)]
    norm_num
  have hm2 : mapElem 3 (16777215 / 16777217) (1 / 2) = 4194304 := by
    unfold mapElem cOf intMinOf intMaxOf midpointOf clampI
    rw [show (1 : ℚ) / 2 / (16777215 / 16777217) *
        (2 ^ (8 * 3 - 1) - 1 / 2) = 16777217 / 4 by norm_num]
    rw [roundHTZ_eval_pos 4194304 (by norm_num) (by norm_num) (by norm_num)]
    norm_num
  simp only [floatToInteger, resolveScale, c7_scenario_autoScale, List.map_cons,
    List.map_nil, List.any_cons, List.any_nil, hm1, hm2]
  norm_num [cOf]

/-- Counterexample for claim C7: the input `[-1, 1/2]` at width 3 with
`scale="auto"` satisfies the claim's precondition
(`-min/(1 + 1/c) = 16777215/16777217 > 1/2 = max`), and indeed maps the
minimum to exactly `-2^23` with no violation, but the maximum maps to
`4194304`, not `2^23 - 1`: the mapped extremes are not both domain
extremes. -/
theorem claim_c7_counterexample :
    (1 : ℚ) / 2 < -(-1 : ℚ) / (1 + 1 / cOf 3) ∧
    floatToInteger [-1, 1 / 2] 3 .auto "warn" =
      .ok (false, [-8388608, 4194304]) ∧
    (-8388608 : Int) = -2 ^ 23 ∧ (4194304 : Int) ≠ 2 ^ 23 - 1 :=
  ⟨by norm_num [cOf], c7_scenario_eval, by norm_num, by norm_num⟩

/-- Claim C7 (amended): for width-3 output with `scale="auto"`, whenever
the input's minimum is more negative relative to the asymmetric bound
than its maximum (`-min/(1 + 1/c) > max`), no clipping violation is
detected (the mapper succeeds with a cleared warning flag under every
clip policy), the mapped minimum is exactly `-2^23`, and all mapped
values lie in `[-2^23, 2^23 - 1]`; the mapped maximum, however, need not
equal `2^23 - 1`. -/
theorem claim_c7_auto_width3_amended (x : List ℚ) (xmin xmax : ℚ)
    (clip : String)
    (hclip : clip = "ignore" ∨ clip = "warn" ∨ clip = "raise")
    (hminmem : xmin ∈ x) (hmin : ∀ t ∈ x, xmin ≤ t)
    (hmaxmem : xmax ∈ x) (hmax : ∀ t ∈ x, t ≤ xmax)
    (hcond : xmax < -xmin / (1 + 1 / cOf 3)) :
    floatToInteger x 3 .auto clip =
      .ok (false, x.map (mapElem 3 (autoScale x (cOf 3)))) ∧
    mapElem 3 (autoScale x (cOf 3)) xmin = -2 ^ 23 ∧
    (∀ t ∈ x, -2 ^ 23 ≤ mapElem 3 (autoScale x (cOf 3)) t ∧
      mapElem 3 (autoScale x (cOf 3)) t ≤ 2 ^ 23 - 1) := by
  have hc : (0 : ℚ) < cOf 3 := by norm_num [cOf]
  have h1c : (0 : ℚ) < 1 + 1 / cOf 3 := by norm_num [cOf]
  have hminmax : xmin ≤ xmax := hmax xmin hminmem
  have hxmin_neg : xmin < 0 := by
    by_contra hcon
    push_neg at hcon
    have hnp : -xmin / (1 + 1 / cOf 3) ≤ 0 :=
      div_nonpos_of_nonpos_of_nonneg (by linarith) (by linarith)
    linarith
  have hN : maxOrZero ((x.filter fun t => decide (t < 0)).map fun t => -t) =
      -xmin := by
    apply le_antisymm
    · apply maxOrZero_le (by linarith)
      intro u hu
      rcases List.mem_map.mp hu with ⟨t, htf, hut⟩
      rcases List.mem_filter.mp htf with ⟨htx, _⟩
      rw [← hut]
      exact neg_le_neg (hmin t htx)
    · exact le_maxOrZero (List.mem_map.mpr ⟨xmin,
        List.mem_filter.mpr ⟨hminmem, by simpa using hxmin_neg⟩, rfl⟩)
  have hSpos : (0 : ℚ) < -xmin / (1 + 1 / cOf 3) := div_pos (by linarith) h1c
  have hP : maxOrZero (x.filter fun t => decide (0 < t)) ≤
      -xmin / (1 + 1 / cOf 3) := by
    apply maxOrZero_le (le_of_lt hSpos)
    intro t htf
    rcases List.mem_filter.mp htf with ⟨htx, _⟩
    exact le_of_lt (lt_of_le_of_lt (hmax t htx) hcond)
  have hS : autoScale x (cOf 3) = -xmin / (1 + 1 / cOf 3) := by
    unfold autoScale
    rw [hN]
    exact max_eq_right hP
  have hSpos' : (0 : ℚ) < autoScale x (cOf 3) := hS ▸ hSpos
  have hxmin_ne : xmin ≠ 0 := ne_of_lt hxmin_neg
  have hscaled_min : xmin / autoScale x (cOf 3) = -(1 + 1 / cOf 3) := by
    rw [hS]
    field_simp
    ring
  have hub : ∀ t ∈ x, t / autoScale x (cOf 3) ≤ 1 := by
    intro t htx
    have hts : t < autoScale x (cOf 3) := by
      rw [hS]
      exact lt_of_le_of_lt (hmax t htx) hcond
    exact le_of_lt ((div_lt_one hSpos').mpr hts)
  have hlb : ∀ t ∈ x, -1 - 1 / cOf 3 ≤ t / autoScale x (cOf 3) := by
    intro t htx
    have := (div_le_div_iff_of_pos_right hSpos').mpr (hmin t htx)
    rw [hscaled_min] at this
    linarith
  have hany1 : ((x.map fun t => t / autoScale x (cOf 3)).any
      fun t => decide (1 < t)) = false := by
    rw [List.any_eq_false]
    intro u hu
    rcases List.mem_map.mp hu with ⟨t, htx, hut⟩
    simpa [← hut] using not_lt.mpr (hub t htx)
  have hany2 : ((x.map fun t => t / autoScale x (cOf 3)).any
      fun t => decide (t < -1 - 1 / cOf 3)) = false := by
    rw [List.any_eq_false]
    intro u hu
    rcases List.mem_map.mp hu with ⟨t, htx, hut⟩
    simpa [← hut] using not_lt.mpr (hlb t htx)
  refine ⟨?_, ?_, ?_⟩
  · simp only [floatToInteger, resolveScale, hany1, hany2, Bool.or_self,
      Bool.and_false, Bool.false_eq_true, if_false, ite_false]
  · have harg : xmin / autoScale x (cOf 3) * cOf 3 = -(cOf 3 + 1) := by
      rw [hscaled_min]
      have hcne : cOf 3 ≠ 0 := ne_of_gt hc
      field_simp
    unfold mapElem
    rw [harg]
    have hr : roundHTZ (-(cOf 3 + 1)) = -8388608 := by
      have harg2 : -(cOf 3 + 1) = -(16777217 / 2 : ℚ) := by norm_num [cOf]
      rw [harg2, roundHTZ_eval_neg 8388608 (by norm_num) (by norm_num)
        (by norm_num)]
    rw [hr]
    norm_num [intMinOf, intMaxOf, midpointOf, clampI]
  · intro t _
    have hbounds : intMinOf 3 ≤ clampI (intMinOf 3) (intMaxOf 3)
        (midpointOf 3 + roundHTZ (t / autoScale x (cOf 3) * cOf 3)) ∧
        clampI (intMinOf 3) (intMaxOf 3)
          (midpointOf 3 + roundHTZ (t / autoScale x (cOf 3) * cOf 3)) ≤
          intMaxOf 3 :=
      clampI_bounds (by norm_num [intMinOf, intMaxOf])
    constructor
    · simpa [mapElem, intMinOf] using hbounds.1
    · simpa [mapElem, intMaxOf] using hbounds.2

/-- Witness for the amended claim C7: in the scenario `[-1, 1/2]` the
mapped minimum is exactly `-2^23`. -/
theorem claim_c7_auto_width3_amended_witness :
    mapElem 3 (autoScale [-1, 1 / 2] (cOf 3)) (-1) = -2 ^ 23 :=
  (claim_c7_auto_width3_amended [-1, 1 / 2] (-1) (1 / 2) "warn" (by norm_num)
    (by norm_num) (by rintro t ht; fin_cases ht <;> norm_num)
    (by norm_num) (by rintro t ht; fin_cases ht <;> norm_num)
    (by norm_num [cOf])).2.1

/-- Counterexample for claim C8: the claim asserts that any non-positive
fixed numeric scale fails with a `DomainError`, but the Amplitude Mapper
with scale `-1` (clip `"ignore"`) succeeds and returns a mapped value
(`0.5 / -1 * 32767.5 = -16383.75`, rounded to `-16384`; every quantity
here is exactly representable in binary floating point, so the rational
trace coincides with the numpy computation).  The code defines no
`DomainError` at all: `WavErr` enumerates every exception kind the write
path raises. -/
theorem claim_c8_counterexample :
    floatToInteger [1 / 2] 2 (.num (-1)) "ignore" = .ok (false, [-16384]) := by
  have hm : mapElem 2 (-1) (1 / 2) = -16384 := by
    unfold mapElem cOf intMinOf intMaxOf midpointOf clampI
    rw [show (1 : ℚ) / 2 / (-1) * (2 ^ (8 * 2 - 1) - 1 / 2) =
        -(65535 / 4) by norm_num]
    rw [roundHTZ_eval_neg 16384 (by norm_num) (by norm_num) (by norm_num)]
    norm_num
  simp only [floatToInteger, resolveScale, List.map_cons, List.map_nil,
    List.any_cons, List.any_nil, hm]
  norm_num [cOf]

/-- Claim C8 (amended): `_float_to_integer` performs no validation of a
numeric scale and the code defines no `DomainError`: for every negative
scale and clip policy `"ignore"` or `"warn"`, the call succeeds and
returns the mapped values rather than failing.  (At scale exactly 0 the
program divides by zero in floating point, producing infinities and a
`RuntimeWarning` — behaviour outside this exact-rational model — but
still no exception and no `DomainError`, a class that does not exist.) -/
theorem claim_c8_no_scale_validation_amended (x : List ℚ) (sw : Nat) (s : ℚ)
    (clip : String) (hs : s < 0) (hclip : clip = "ignore" ∨ clip = "warn") :
    floatToInteger x sw (.num s) clip =
      .ok ((clip == "warn") &&
        (((x.map fun t => t / s).any fun t => decide (1 < t)) ||
          (x.map fun t => t / s).any fun t => decide (t < -1 - 1 / cOf sw)),
        x.map (mapElem sw s)) := by
  have hraise : (clip == "raise") = false := by
    rcases hclip with h | h <;> subst h <;> decide
  simp only [floatToInteger, resolveScale, hraise, Bool.false_and,
    Bool.false_eq_true, if_false, ite_false]

/-- Witness for the amended claim C8: scale -1, width 2, clip `"ignore"`. -/
theorem claim_c8_no_scale_validation_amended_witness :
    floatToInteger [1 / 2] 2 (.num (-1)) "ignore" =
      .ok (("ignore" == "warn") &&
        ((([(1 : ℚ) / 2].map fun t => t / (-1)).any fun t => decide (1 < t)) ||
          ([(1 : ℚ) / 2].map fun t => t / (-1)).any fun t =>
            decide (t < -1 - 1 / cOf 2)),
        [(1 : ℚ) / 2].map (mapElem 2 (-1))) :=
  claim_c8_no_scale_validation_amended [1 / 2] 2 (-1) "ignore" (by norm_num)
    (Or.inl rfl)

end Wavio
